import Mathlib

/-!
Verification development for the plugin loader of `tradle/lambda-plugins`.

The development shallowly embeds the TypeScript sources:
  * `src/util.ts` — the package entry-point resolver (`createMatcher`,
    `createExportsMatcher`, `createLegacyMatcher`, `createPatternMatcher`,
    `lookup`, `createResolver`, `normalize`);
  * `src/index.ts` / `src/lambda-plugins-s3.ts` — the installation state
    tracker (`assertInstalled`, `validatePluginDefinition(s)`,
    `toInstallKeys`) and the plugin handle (`Plugin.package`, `Plugin.data`,
    `fuzzyChooseImport`).

JavaScript strings are modelled as `List Char` (UTF-16 code units; all the
inputs of interest are in the basic plane, where code units and code points
agree).  Platform functions that the sources call (`path.resolve`, the WHATWG
`URL` parser) are modelled by small executable functions that capture exactly
the behaviour the sources depend on; their doc comments state the modelling
scope.  Stateful operations (`assertInstalled`, the memoized `Plugin`
accessors) are modelled as pure functions from explicit inputs (the persisted
state read from disk, the current time, the outcome of the external npm
subprocess and s3 downloads) to a result together with a trace of the
externally visible actions taken.
-/

/-- JavaScript strings, modelled as lists of UTF-16 code units. -/
abbrev JStr := List Char

/-- JavaScript `String.prototype.substring(a, b)`: both indices are clamped to
`[0, length]` and swapped when `a > b`.  With `Nat` arguments, clamping below 0
is built into the callers (Nat subtraction saturates exactly like the JS
clamp), so only the upper clamp and the swap are modelled here. -/
def jsSubstring (s : JStr) (a b : Nat) : JStr :=
  if a ≤ b then (s.take b).drop a else (s.take a).drop b

/-- JavaScript `String.prototype.indexOf(c)` for a single character, with
`none` standing for the `-1` result. -/
def jsIndexOf (s : JStr) (c : Char) : Option Nat :=
  s.findIdx? (fun x => x = c)

/-- Module-system condition (`type` in `util.ts`): `'module' | 'commonjs'`. -/
inductive MType
  | module
  | commonjs
deriving DecidableEq

/-- Which condition key of a conditional-exports definition produced a
resolution.  The source builds diagnostic strings such as
`.exports[...].import`; they are modelled structurally here. -/
inductive CondTag
  | imp
  | node
  | req
  | dflt
deriving DecidableEq

/-- Structural model of the `cause` diagnostic strings built in `util.ts`. -/
inductive CauseTag
  | mainOnly
  | mainTypeModule
  | moduleField
  | exportsKey (pat : JStr) (cond : Option CondTag)
deriving DecidableEq

/-- The `Import` result of a matcher: a cause together with a location that is
a string or `null` (`none`). -/
structure ImportRes where
  cause : CauseTag
  location : Option JStr
deriving DecidableEq

/-- A conditional-exports definition object with the four recognised keys.
Each field is `none` when the key is absent, `some none` when it is present
with value `null`, and `some (some s)` for a string value. -/
structure DefObj where
  imp : Option (Option JStr)
  node : Option (Option JStr)
  req : Option (Option JStr)
  dflt : Option (Option JStr)
deriving DecidableEq

/-- A `Definition` from `util.ts`: a string, `null`, or a definition object. -/
inductive JsDefinition
  | str (s : JStr)
  | nul
  | obj (o : DefObj)
deriving DecidableEq

/-- The value of a manifest `exports` field: a bare string, a single
definition object, or a mapping from sub-path patterns to definitions (the
constructor choice encodes the JavaScript value's shape; `patMap` is used for
objects whose keys are sub-path patterns, which are never among the four
condition names checked by `isDefinition`). -/
inductive ExportsVal
  | str (s : JStr)
  | nul
  | defObj (o : DefObj)
  | patMap (entries : List (JStr × JsDefinition))
deriving DecidableEq

/-- A parsed `package.json` manifest with the fields `util.ts` inspects. -/
structure Pkg where
  main : Option JStr
  type : Option JStr
  module : Option JStr
  exports : Option ExportsVal
deriving DecidableEq

/-- Model of Node's `path.resolve(base, loc)` restricted to what the sources
rely on: an absolute `loc` wins, otherwise it is joined onto `base`.  (`..`
and `.` segment folding is irrelevant to every property proved here.) -/
def pathResolve (base loc : JStr) : JStr :=
  match loc with
  | '/' :: _ => loc
  | _ => base ++ '/' :: loc

/-- `isDefinition` from `util.ts`.  Note the faithful embedding of the
comparison `map === 'string'`: the *value* is compared against the literal
string `"string"`, so a bare string is recognised as a definition only when it
is that exact word.  A definition object is recognised when one of the four
condition keys is present. -/
def isDefinition : Option ExportsVal → Bool
  | some (.str s) => s = "string".toList
  | some (.defObj o) => o.imp.isSome || o.node.isSome || o.req.isSome || o.dflt.isSome
  | some (.patMap _) => false
  | some .nul => false
  | none => false

/-- `createPatternMatcher` from `util.ts`: the first `*` of the pattern splits
it into a literal prefix and a literal suffix (which may itself contain
further `*` characters); a star-free pattern matches only itself. -/
def createPatternMatcher (pat : JStr) : JStr → Option JStr :=
  match jsIndexOf pat '*' with
  | none => fun test => if test = pat then some [] else none
  | some star =>
    let pre := pat.take star
    let start := pre.length
    if star ≠ pat.length - 1 then
      let suf := pat.drop (star + 1)
      let e := suf.length
      fun test =>
        if pre.isPrefixOf test && suf.isSuffixOf test then
          some (jsSubstring test start (test.length - e))
        else none
    else
      fun test => if pre.isPrefixOf test then some (test.drop start) else none

/-- `lookup` from `util.ts`: turns one condition value (`undefined`, `null`,
or a target string) into an optional resolver; a `*` in the target is a
substitution point for the captured text (only the first `*`: the remainder
after it is appended literally). -/
def lookupDef (cause : CauseTag) : Option (Option JStr) → Option (JStr → ImportRes)
  | none => none
  | some none => some (fun _ => ⟨cause, none⟩)
  | some (some p) =>
    match jsIndexOf p '*' with
    | some star =>
      let pre := p.take star
      if star ≠ p.length - 1 then
        let suf := p.drop (star + 1)
        some (fun input => ⟨cause, some (pre ++ input ++ suf)⟩)
      else
        some (fun input => ⟨cause, some (pre ++ input)⟩)
    | none => some (fun _ => ⟨cause, some p⟩)

/-- `createResolver` from `util.ts`: for `"module"` only the `import`
condition (then `default`) is honoured; for `"commonjs"` it is `node`, then
`require`, then `default`. -/
def createResolver (t : MType) (pat : JStr) (part : JsDefinition) :
    Option (JStr → ImportRes) :=
  match part with
  | .nul => some (fun _ => ⟨.exportsKey pat none, none⟩)
  | .str s => some (fun _ => ⟨.exportsKey pat none, some s⟩)
  | .obj o =>
    let direct :=
      match t with
      | .module => lookupDef (.exportsKey pat (some .imp)) o.imp
      | .commonjs =>
        (lookupDef (.exportsKey pat (some .node)) o.node).orElse
          (fun _ => lookupDef (.exportsKey pat (some .req)) o.req)
    direct.orElse (fun _ => lookupDef (.exportsKey pat (some .dflt)) o.dflt)

/-- Stable insertion used by `jsStableSort`: the new element goes after every
already-placed element that may precede it (`le b a`), so elements comparing
equal keep their original relative order. -/
def jsSortInsert (le : α → α → Bool) (a : α) : List α → List α
  | [] => [a]
  | b :: bs => if le b a then b :: jsSortInsert le a bs else a :: b :: bs

/-- Worker of `jsStableSort`: inserts the remaining elements one by one into
the sorted accumulator. -/
def jsSortGo (le : α → α → Bool) : List α → List α → List α
  | acc, [] => acc
  | acc, a :: as => jsSortGo le (jsSortInsert le a acc) as

/-- Model of JavaScript `Array.prototype.sort` with a comparator: a stable
sort by the boolean relation `le a b` ("the comparator returns ≤ 0 on
`(a, b)`", i.e. `a` may be placed before `b`). -/
def jsStableSort (le : α → α → Bool) (l : List α) : List α :=
  jsSortGo le [] l

/-- `longerMatchFirst` from `util.ts`, recast as the boolean `le` relation
that `Array.prototype.sort` (a stable sort) realises: an entry sorts no later
than another when its pattern string is at least as long. -/
def longerFirstLe (a b : JStr × JsDefinition) : Bool :=
  b.1.length ≤ a.1.length

/-- The per-type matcher lists built by `createExportsMatcher`: entries sorted
by decreasing pattern length, keeping only those whose definition yields a
resolver for the requested module system. -/
def exportsMatchers (t : MType) (entries : List (JStr × JsDefinition)) :
    List ((JStr → Option JStr) × (JStr → ImportRes)) :=
  (jsStableSort longerFirstLe entries).filterMap fun e =>
    (createResolver t e.1 e.2).map fun r => (createPatternMatcher e.1, r)

/-- The matching loop of `createExportsMatcher`: the first pattern that
matches wins; a non-null resolved location is joined onto the package root. -/
def runMatchers (pkgPth : JStr) :
    List ((JStr → Option JStr) × (JStr → ImportRes)) → JStr → Option ImportRes
  | [], _ => none
  | (m, r) :: rest, name =>
    match m name with
    | none => runMatchers pkgPth rest name
    | some lu =>
      let res := r lu
      some ⟨res.cause, res.location.map (pathResolve pkgPth)⟩

/-- `createExportsMatcher` from `util.ts`. -/
def createExportsMatcher (pkgPth : JStr) (entries : List (JStr × JsDefinition)) :
    JStr → MType → Option ImportRes :=
  fun name t => runMatchers pkgPth (exportsMatchers t entries) name

/-- `createLegacyMatcher` from `util.ts`: `main` when the requested module
system matches the manifest's declared type, else `module` for `"module"`
requests. -/
def createLegacyMatcher (pkgPth : JStr) (pkg : Pkg) : JStr → MType → Option ImportRes :=
  let pkgType := if pkg.type = some "module".toList then MType.module else MType.commonjs
  fun _ t =>
    match pkg.main with
    | some m =>
      if t = pkgType then some ⟨if t = .module then .mainTypeModule else .mainOnly,
        some (pathResolve pkgPth m)⟩
      else
        match t, pkg.module with
        | .module, some md => some ⟨.moduleField, some (pathResolve pkgPth md)⟩
        | _, _ => none
    | none =>
      match t, pkg.module with
      | .module, some md => some ⟨.moduleField, some (pathResolve pkgPth md)⟩
      | _, _ => none

/-- Conversion of an exports value recognised by `isDefinition` into the
definition placed under the `"."` key (the `patMap` case is unreachable:
`isDefinition` rejects it). -/
def exportsAsDefinition : ExportsVal → JsDefinition
  | .str s => .str s
  | .defObj o => .obj o
  | .patMap _ => .nul
  | .nul => .nul

/-- `createMatcher` from `util.ts`: a definition-shaped `exports` is wrapped
as `{".": exports}`; an object-typed `exports` uses the exports strategy;
anything else (including a bare non-`"string"` string, due to the
`map === 'string'` comparison in `isDefinition`) falls back to the legacy
strategy. -/
def createMatcher (pkgPth : JStr) (pkg : Pkg) : JStr → MType → Option ImportRes :=
  match pkg.exports with
  | some ev =>
    if isDefinition (some ev) then
      createExportsMatcher pkgPth [(".".toList, exportsAsDefinition ev)]
    else
      match ev with
      | .patMap entries => createExportsMatcher pkgPth entries
      | .defObj _ => createExportsMatcher pkgPth []
      | .nul => createLegacyMatcher pkgPth pkg
      | .str _ => createLegacyMatcher pkgPth pkg
  | none => createLegacyMatcher pkgPth pkg

/-- JavaScript whitespace as used by `trim` and `\s` for the inputs of
interest (ASCII whitespace). -/
def isJsWhitespace (c : Char) : Bool :=
  c = ' ' || c = '\t' || c = '\n' || c = '\r' || c = '\x0b' || c = '\x0c'

/-- `normalize` from `util.ts` (`none` stands for `undefined`/`null`): trim,
enforce a leading `./`, strip one trailing `/`. -/
def normalizeName (name : Option JStr) : JStr :=
  let n0 := (name.getD []).dropWhile isJsWhitespace |>.reverse.dropWhile isJsWhitespace |>.reverse
  let n1 := if ("./".toList).isPrefixOf n0 then n0 else "./".toList ++ n0
  if n1.getLast? = some '/' then n1.take (n1.length - 1) else n1

/-- Modelled from the spec: the entry point of the Entry-Point Resolver.
`src/util.ts` defines `normalize` and `createMatcher` but the call site that
wires them together is not under `src` (only the test files exercise the
matcher); per the resolver contract, patterns are matched against the
normalized requested sub-path, so `resolve` applies `normalize` before
querying the matcher built from the manifest. -/
def resolve (pkgPth : JStr) (pkg : Pkg) (subPath : JStr) (t : MType) : Option ImportRes :=
  createMatcher pkgPth pkg (normalizeName (some subPath)) t

/-- Characters allowed in the prerelease/build groups `[a-z0-9.]` under the
regex's `i` flag. -/
def isTagChar (c : Char) : Bool :=
  c.isAlpha || c.isDigit || c = '.'

/-- Splits off a maximal run of ASCII digits (regex `\d+`/`[0-9]+`). -/
def spanDigits (cs : JStr) : JStr × JStr :=
  (cs.takeWhile Char.isDigit, cs.dropWhile Char.isDigit)

/-- One optional `(\.([0-9]+|x))` component of the version regex (the `i`
flag makes `x` case-insensitive); returns the matched group text (with its
leading dot) and the rest.  The alternation is ordered: digits first. -/
def parseDotComp : JStr → Option (JStr × JStr)
  | '.' :: rest =>
    let (ds, r2) := spanDigits rest
    if ds ≠ [] then some ('.' :: ds, r2)
    else
      match rest with
      | c :: r3 => if c = 'x' ∨ c = 'X' then some (['.', c], r3) else none
      | [] => none
  | _ => none

/-- One optional suffix group `(-[a-z0-9.]+)` / `(\+[a-z0-9.]+)` of the
version regex, parameterised by its leading character. -/
def parseTagComp (lead : Char) : JStr → Option (JStr × JStr)
  | c :: rest =>
    if c = lead then
      let (xs, r2) := (rest.takeWhile isTagChar, rest.dropWhile isTagChar)
      if xs ≠ [] then some (c :: xs, r2) else none
    else none
  | [] => none

/-- The capture groups of the version regex in `validatePluginDefinition`:
`/^(\^|~|>=|<|>|<=|==)?((\d+)(\.([0-9]+|x))?(\.([0-9]+|x))?(-[a-z0-9.]+)?(\+[a-z0-9.]+)?)?$/i`.
`range` is group 1, `version` group 2, `major` group 3, `minorG`/`patchG` the
dot-prefixed groups 4 and 6 (`undefined` is `none` throughout). -/
structure SemGroups where
  range : Option JStr
  version : Option JStr
  major : Option JStr
  minorG : Option JStr
  patchG : Option JStr
deriving DecidableEq

/-- Matches the optional version body of the regex (`((\d+)(…)?(…)?(…)?(…)?)?$`)
against the whole remaining input, returning the groups 2, 3, 4, 6.  The
greedy sub-matches need no backtracking: each group's first character
(`.`, `-`, `+`) cannot occur inside the preceding greedy run. -/
def parseVersionToEnd (cs : JStr) :
    Option (Option JStr × Option JStr × Option JStr × Option JStr) :=
  if cs = [] then some (none, none, none, none)
  else
    let (mj, r1) := spanDigits cs
    if mj = [] then none
    else
      let (mnG, r2) := match parseDotComp r1 with
        | some (g, r) => (some g, r)
        | none => (none, r1)
      let (ptG, r3) := match parseDotComp r2 with
        | some (g, r) => (some g, r)
        | none => (none, r2)
      let (preG, r4) := match parseTagComp '-' r3 with
        | some (g, r) => (some g, r)
        | none => (none, r3)
      let (bldG, r5) := match parseTagComp '+' r4 with
        | some (g, r) => (some g, r)
        | none => (none, r4)
      if r5 = [] then
        some (some (mj ++ mnG.getD [] ++ ptG.getD [] ++ preG.getD [] ++ bldG.getD []),
          some mj, mnG, ptG)
      else none

/-- The range-prefix alternatives of group 1, in the regex's alternation
order (the engine backtracks through them, then tries skipping the optional
group). -/
def rangeTokens : List JStr :=
  ["^".toList, "~".toList, ">=".toList, "<".toList, ">".toList, "<=".toList, "==".toList]

/-- `regex.exec` of the version regex: try each range-prefix alternative in
order (committing only when the rest of the input then matches to the end),
finally the match without a range prefix; `none` is a failed match. -/
def semverExec (value : JStr) : Option SemGroups :=
  match rangeTokens.findSome? (fun r =>
      if r.isPrefixOf value then
        (parseVersionToEnd (value.drop r.length)).map fun g =>
          SemGroups.mk (some r) g.1 g.2.1 g.2.2.1 g.2.2.2
      else none) with
  | some g => some g
  | none => (parseVersionToEnd value).map fun g =>
      SemGroups.mk none g.1 g.2.1 g.2.2.1 g.2.2.2

/-- A WHATWG `URL` as far as `validatePluginDefinition` inspects it:
`protocol` (lower-cased scheme with trailing colon) and `hash` (`#` plus the
fragment, or empty when the fragment is absent or empty). -/
structure JsURL where
  protocol : JStr
  hash : JStr
deriving DecidableEq

/-- Modelled from the spec: the platform's WHATWG `new URL(value)` parser
(external to this repository), reduced to the two fields the validator reads.
A URL string parses when it starts with a scheme (a letter followed by
letters, digits, `+`, `-`, `.`) and a colon; the fragment is everything after
the first `#`. -/
def parseJsURL (s : JStr) : Option JsURL :=
  match s with
  | [] => none
  | c :: _ =>
    if c.isAlpha then
      let sch := s.takeWhile (fun x => x.isAlpha || x.isDigit || x = '+' || x = '-' || x = '.')
      match s.drop sch.length with
      | ':' :: r2 =>
        let hash := match r2.dropWhile (fun x => x ≠ '#') with
          | '#' :: f => if f = [] then [] else '#' :: f
          | _ => []
        some ⟨sch.map Char.toLower ++ [':'], hash⟩
      | _ => none
    else none

/-- The test `/^#[a-f0-9]{40}$/i.test(url.hash)` for a pinned github ref. -/
def githubHashOk (hash : JStr) : Bool :=
  match hash with
  | '#' :: f =>
    f.length = 40 && f.all (fun c => c.isDigit
      || ('a' ≤ c && c ≤ 'f') || ('A' ≤ c && c ≤ 'F'))
  | _ => false

/-- The distinct `throw` sites of `validatePluginDefinition` and
`validatePluginDefinitions`, with the data their messages interpolate. -/
inductive VError
  | nameWithSpace (index : Nat)
  | emptyName (index : Nat) (key : JStr)
  | vagueVersion (index : Nat) (key value : JStr)
  | versionRange (index : Nat) (key range : JStr) (version : Option JStr)
  | vagueRange (index : Nat) (key major : JStr) (minorG patchG : Option JStr)
  | notVersionOrURL (index : Nat) (key value : JStr)
  | unpinnedGithub (index : Nat) (key prevHash : JStr)
  | unsupportedProtocol (index : Nat) (key value protocol : JStr)
deriving DecidableEq

deriving instance DecidableEq for Except

/-- `validatePluginDefinition` from `src/index.ts` /
`src/lambda-plugins-s3.ts`: name and vagueness guards, then the version
regex (with the strict-only range/vagueness rejections), else URL validation
with the `github:`/`https:`/`s3:` allow-list. -/
def validatePluginDefinition (key value : JStr) (index : Nat) (strict : Bool) :
    Except VError JStr :=
  if key.any isJsWhitespace then .error (.nameWithSpace index)
  else if key.all isJsWhitespace then .error (.emptyName index key)
  else if value = "*".toList ∨ value = [] then .error (.vagueVersion index key value)
  else
    match semverExec value with
    | some g =>
      if strict then
        if g.range.isSome then
          .error (.versionRange index key (g.range.getD []) g.version)
        else if g.minorG.isNone || g.patchG.isNone then
          .error (.vagueRange index key (g.major.getD []) g.minorG g.patchG)
        else .ok (key ++ '@' :: value)
      else .ok (key ++ '@' :: value)
    | none =>
      match parseJsURL value with
      | none => .error (.notVersionOrURL index key value)
      | some url =>
        if url.protocol = "github:".toList then
          if githubHashOk url.hash then .ok value
          else .error (.unpinnedGithub index key url.hash)
        else if url.protocol = "https:".toList ∨ url.protocol = "s3:".toList then .ok value
        else .error (.unsupportedProtocol index key value url.protocol)

/-- JavaScript string comparison `a < b` (lexicographic on code units), as
used by `sortByFirst`. -/
def strLt : JStr → JStr → Bool
  | _, [] => false
  | [], _ :: _ => true
  | a :: as, b :: bs => if a < b then true else if b < a then false else strLt as bs

/-- `sortByFirst` from the sources, recast as the boolean `le` relation the
stable `Array.prototype.sort` realises: `a` may precede `b` unless `b`'s key
is strictly smaller. -/
def sortByFirstLe (a b : JStr × JStr) : Bool :=
  !(strLt b.1 a.1)

/-- JavaScript record assignment `result[key] = value` on an
insertion-ordered record: an existing key keeps its position and gets the new
value, a fresh key is appended.  (The engine's special ordering of
integer-like keys is outside the modelled input space: plugin names are not
array indices.) -/
def recordSet (rec : List (JStr × JStr)) (k v : JStr) : List (JStr × JStr) :=
  if rec.any (fun e => e.1 = k) then
    rec.map (fun e => if e.1 = k then (k, v) else e)
  else rec ++ [(k, v)]

/-- The loop of `validatePluginDefinitions`: validate each sorted entry in
order (with its running index) and assign it into the result record. -/
def validateEntriesGo (strict : Bool) :
    Nat → List (JStr × JStr) → List (JStr × JStr) → Except VError (List (JStr × JStr))
  | _, acc, [] => .ok acc
  | i, acc, (k, v) :: rest =>
    match validatePluginDefinition k v i strict with
    | .error e => .error e
    | .ok _ => validateEntriesGo strict (i + 1) (recordSet acc k v) rest

/-- `validatePluginDefinitions` from the sources: the entries of the input
mapping (object or `Map`, both embedded as their entry list) are sorted by
name with the stable `sortByFirst` sort, validated in order, and assembled
into the normalized record (the value stored is the original version string,
not the validated reference). -/
def validatePluginDefinitions (entries : List (JStr × JStr)) (strict : Bool) :
    Except VError (List (JStr × JStr)) :=
  validateEntriesGo strict 0 [] (jsStableSort sortByFirstLe entries)

/-- JSON string escaping for the characters that can occur in plugin names
and version/source strings (quote and backslash; control characters do not
occur in validated input). -/
def jsonEscape (s : JStr) : JStr :=
  s.flatMap fun c => if c = '"' || c = '\\' then ['\\', c] else [c]

/-- `JSON.stringify` of a string-to-string record in its insertion order:
the fingerprint serialization used for the `hash` field. -/
def jsonStringify (l : List (JStr × JStr)) : JStr :=
  '\x7b' :: (",".toList).intercalate (l.map (fun e =>
      '"' :: jsonEscape e.1 ++ '"' :: ':' :: '"' :: jsonEscape e.2 ++ ['"'])) ++ ['\x7d']

/-- `Map` lookup `m.get(k)` on an entry list with unique keys. -/
def jsGet (l : List (JStr × JStr)) (k : JStr) : Option JStr :=
  (l.find? (fun e => e.1 = k)).map Prod.snd

/-- `Map` deletion `m.delete(k)`. -/
def jsDelete (l : List (JStr × JStr)) (k : JStr) : List (JStr × JStr) :=
  l.filter (fun e => e.1 ≠ k)

/-- The delta loop of `assertInstalled`: for every persisted entry whose
exact name/version pair is also desired, drop it from both the remove set and
the install set.  `rm` is `new Map(Object.entries(state.pluginsMap))`, `ins`
is `new Map(Object.entries(pluginsMap))`. -/
def applyDelta (rm ins : List (JStr × JStr)) :
    List (JStr × JStr) × List (JStr × JStr) :=
  rm.foldl (fun acc e =>
      if jsGet acc.2 e.1 = some e.2 then (jsDelete acc.1 e.1, jsDelete acc.2 e.1) else acc)
    (rm, ins)

/-- `/^s3:/.test(input)` from the sources. -/
def isS3URL (input : JStr) : Bool :=
  ("s3:".toList).isPrefixOf input

/-- The npm operations invoked by `npmPkgExec`. -/
inductive NpmOp
  | remove
  | install
deriving DecidableEq

/-- The externally visible actions a reconcile call can perform, in order:
validating the desired spec, invoking the npm subprocess, touching the state
file's timestamp, rewriting the state file. -/
inductive AIAction
  | validated (entries : List (JStr × JStr)) (strict : Bool)
  | npmExec (op : NpmOp) (pkgs : List JStr)
  | touchedTime (t : Int)
  | wroteState (hash : JStr) (pluginsMap : List (JStr × JStr))
deriving DecidableEq

/-- A failure inside the try block of `assertInstalled`: an npm subprocess
error, or a (re-)validation error thrown by `toInstallKeys`. -/
inductive TryErr
  | npm (op : NpmOp) (msg : JStr)
  | reval (e : VError)
deriving DecidableEq

/-- The error outcomes of `assertInstalled`: a validation error (thrown
outside the try block, never swallowed), or the wrapped installation error of
the `failQuietly = false` branch, carrying the attempted name list and the
underlying cause. -/
inductive AIErr
  | validation (e : VError)
  | installFailed (names : List JStr) (cause : TryErr)
deriving DecidableEq

/-- Result of a reconcile call: the returned name list (or thrown error) and
the trace of externally visible actions. -/
structure AIOut where
  result : Except AIErr (List JStr)
  actions : List AIAction
deriving DecidableEq

/-- The persisted state as read by `readState`: fingerprint, optional
modification timestamp, and the persisted name/version record (a missing or
corrupt state file reads as `hash = ""`, no timestamp, empty record). -/
structure StateRec where
  hash : JStr
  timeMs : Option Int
  pluginsMap : List (JStr × JStr)

/-- Options of `assertInstalled` (`loadPlugins` defaults: `maxAge` 120000,
`strict` and `failQuietly` true). -/
structure AIOpts where
  maxAge : Int
  strict : Bool
  failQuietly : Bool

/-- The environment of one reconcile call: the current time and the outcome
of the external effects (npm subprocess exit, s3 downloads). -/
structure World where
  now : Int
  removeErr : Option JStr
  installErr : Option JStr
  s3Local : JStr → JStr

/-- The freshness guard `state.timeMs !== undefined && state.timeMs >= max`
of `assertInstalled`. -/
def fastFresh : Option Int → Int → Bool
  | some t, mx => t ≥ mx
  | none, _ => false

/-- `toInstallKeys` from the sources: every install-set entry is validated
again (index restarting at 0) and s3-backed references are replaced by their
downloaded local paths. -/
def toInstallKeysGo (w : World) (strict : Bool) :
    Nat → List (JStr × JStr) → Except VError (List JStr)
  | _, [] => .ok []
  | i, (n, v) :: rest =>
    match validatePluginDefinition n v i strict with
    | .error e => .error e
    | .ok key =>
      match toInstallKeysGo w strict (i + 1) rest with
      | .error e => .error e
      | .ok ks => .ok ((if isS3URL key then w.s3Local key else key) :: ks)

/-- The npm phase of the try block: remove first (when the remove set is
non-empty), then resolve the install keys and install (when the install set
is non-empty).  Returns the npm actions performed and the first failure, if
any. -/
def npmPhase (w : World) (strict : Bool) (toRm toIns : List (JStr × JStr)) :
    List AIAction × Option TryErr :=
  let installStep : List AIAction × Option TryErr :=
    if toIns.isEmpty then ([], none)
    else
      match toInstallKeysGo w strict 0 toIns with
      | .error e => ([], some (.reval e))
      | .ok keys =>
        match w.installErr with
        | some e => ([], some (.npm .install e))
        | none => ([.npmExec .install keys], none)
  if toRm.isEmpty then installStep
  else
    match w.removeErr with
    | some e => ([], some (.npm .remove e))
    | none => (.npmExec .remove (toRm.map Prod.fst) :: installStep.1, installStep.2)

/-- The slow path of `assertInstalled` (everything after the freshness
guard): validate, compare fingerprints, compute the delta, touch the
timestamp when the delta is empty, else run the npm phase and persist the new
state only on full success; on failure return `[]` when failing quietly, else
throw the wrapped error. -/
def assertSlow (desired : List (JStr × JStr)) (st : StateRec) (opts : AIOpts)
    (w : World) : AIOut :=
  let stateNames := st.pluginsMap.map Prod.fst
  match validatePluginDefinitions desired opts.strict with
  | .error e => ⟨.error (.validation e), [.validated desired opts.strict]⟩
  | .ok pluginsMap =>
    let va := AIAction.validated desired opts.strict
    let hash := jsonStringify pluginsMap
    if st.hash = hash then ⟨.ok stateNames, [va]⟩
    else
      let installedNames := pluginsMap.map Prod.fst
      let delta := applyDelta st.pluginsMap pluginsMap
      if delta.2.isEmpty && delta.1.isEmpty then
        ⟨.ok installedNames, [va, .touchedTime w.now]⟩
      else
        match npmPhase w opts.strict delta.1 delta.2 with
        | (acts, none) => ⟨.ok installedNames, va :: acts ++ [.wroteState hash pluginsMap]⟩
        | (acts, some e) =>
          ⟨if opts.failQuietly then .ok [] else .error (.installFailed installedNames e),
            va :: acts⟩

/-- `assertInstalled` from `src/lambda-plugins-s3.ts` (the variant with the
`failQuietly` option; `src/index.ts` is the same state machine with
`failQuietly` hard-wired to true and no npmrc step): read state, take the
freshness fast path when the timestamp is at least `now - maxAge`, otherwise
run the slow path. -/
def assertInstalled (desired : List (JStr × JStr)) (st : StateRec) (opts : AIOpts)
    (w : World) : AIOut :=
  if fastFresh st.timeMs (w.now - opts.maxAge) then
    ⟨.ok (st.pluginsMap.map Prod.fst), []⟩
  else assertSlow desired st opts w

/-- The result of one call to the memoized accessors `Plugin.package` /
`Plugin.data`: the value handed to the caller, the new memo field, and
whether the underlying loader ran (a fresh disk read / module load).
`memo` is the `_pkg` (resp. `_data`) field before the call, `force` the
optional `force` option, and `fresh` the value the loader would produce now.
The guard is the source's `pkg === undefined || force !== true`. -/
def packageCall (memo : Option α) (force : Option Bool) (fresh : α) :
    α × Option α × Bool :=
  match memo with
  | none => (fresh, some fresh, true)
  | some v => if force = some true then (v, some v, false) else (fresh, some fresh, true)

/-- The five `Cause` constants of `fuzzyChooseImport` in `src/index.ts`. -/
inductive FuzzyCause
  | fallback
  | typeModule
  | moduleField
  | dotExport
  | dotAny
deriving DecidableEq

/-- Whether a `Cause` constant selects dynamic `import` (`useImport`). -/
def FuzzyCause.useImport : FuzzyCause → Bool
  | .fallback => false
  | _ => true

/-- Property access `exports[key]` on the manifest's `exports` value: only a
pattern map can yield a definition for a sub-path key (the four condition
keys of a definition object are never sub-path keys). -/
def exportsGet (ev : ExportsVal) (k : JStr) : Option JsDefinition :=
  match ev with
  | .patMap entries => (entries.find? (fun e => e.1 = k)).map Prod.snd
  | _ => none

/-- The optional-chain test `def?.import !== undefined`: true exactly when
the definition is an object with the `import` key present (a `null` value is
present, hence defined). -/
def defHasImportKey : Option JsDefinition → Bool
  | some (.obj o) => o.imp.isSome
  | _ => false

/-- `typeof pkg.exports === 'object' && pkg.exports !== null`. -/
def exportsIsObject : Option ExportsVal → Bool
  | some (.patMap _) => true
  | some (.defObj _) => true
  | _ => false

/-- `fuzzyChooseImport` from `src/index.ts`: the heuristic `Plugin.data` uses
to pick between dynamic `import` and `require`. -/
def fuzzyChooseImport (pkg : Pkg) : FuzzyCause :=
  if pkg.type = some "module".toList then .typeModule
  else if pkg.module.isSome then .moduleField
  else if exportsIsObject pkg.exports then
    if defHasImportKey (exportsGet (pkg.exports.getD .nul) ".".toList) then .dotExport
    else if defHasImportKey (exportsGet (pkg.exports.getD .nul) "./*".toList) then .dotAny
    else .fallback
  else .fallback

/-- The outcome a runtime-value access would have under the claimed
resolution strategy. -/
inductive C3Outcome
  | viaImport (loc : JStr)
  | viaRequire (loc : JStr)
  | noEntryPoint
deriving DecidableEq

/-- Definition following the claim's words, not the source: resolve the
requested sub-path with the Entry-Point Resolver first in `"module"` mode
then `"commonjs"` mode, use the first definition whose resolved location is
non-null with the corresponding loading mechanism, and fail (the
`NoEntryPointError` case) when both modes yield no location. -/
def c3ClaimedResolution (root : JStr) (pkg : Pkg) (subPath : JStr) : C3Outcome :=
  match resolve root pkg subPath .module with
  | some ⟨_, some loc⟩ => .viaImport loc
  | _ =>
    match resolve root pkg subPath .commonjs with
    | some ⟨_, some loc⟩ => .viaRequire loc
    | _ => .noEntryPoint

/-- Boolean formulation of the amended claim's heuristic, written from the
amended claim's words: dynamic `import` is used exactly when the manifest
declares `type: "module"`, or defines a `module` field, or has an
object-typed `exports` whose `"."` entry — or `"./*"` entry — carries a
present `import` key; otherwise `require` is used (always on the package
root, with no entry-point resolution and no failure). -/
def fuzzyHeuristicSpec (pkg : Pkg) : Bool :=
  pkg.type = some "module".toList
  || pkg.module.isSome
  || (exportsIsObject pkg.exports
      && (defHasImportKey (exportsGet (pkg.exports.getD .nul) ".".toList)
          || defHasImportKey (exportsGet (pkg.exports.getD .nul) "./*".toList)))

example : normalizeName (some "".toList) = ".".toList := by decide

example : normalizeName (some "hidden".toList) = "./hidden".toList := by decide

example : normalizeName (some "./x/".toList) = "./x".toList := by decide

example :
    resolve "/root".toList ⟨some "./test.js".toList, none, none, none⟩ "".toList .commonjs
      = some ⟨.mainOnly, some "/root/./test.js".toList⟩ := by decide

example :
    resolve "/root".toList ⟨some "./test.js".toList, none, none, none⟩ "".toList .module
      = none := by decide

example :
    resolve "/root".toList ⟨some "./test.js".toList, some "module".toList, none, none⟩
      "".toList .commonjs = none := by decide

example :
    resolve "/root".toList ⟨some "./a.cjs".toList, none, some "b.mjs".toList, none⟩
      "".toList .module = some ⟨.moduleField, some "/root/b.mjs".toList⟩ := by decide

example :
    resolve "/root".toList
      ⟨some "a.js".toList, none, none,
        some (.defObj ⟨some (some "./b.js".toList), none, some (some "./c.js".toList), none⟩)⟩
      "".toList .commonjs
      = some ⟨.exportsKey ".".toList (some .req), some "/root/./c.js".toList⟩ := by decide

example :
    resolve "/root".toList
      ⟨some "a.js".toList, none, none,
        some (.defObj ⟨some (some "./b.js".toList), none, some (some "./c.js".toList), none⟩)⟩
      "".toList .module
      = some ⟨.exportsKey ".".toList (some .imp), some "/root/./b.js".toList⟩ := by decide

example :
    resolve "/root".toList
      ⟨some "a.js".toList, none, none, some (.patMap [
        ("./foo/*".toList, .nul),
        ("./bar/*".toList, .obj ⟨none, none, some none, none⟩),
        (".".toList, .obj ⟨some (some "./c.js".toList), none, some (some "./b.js".toList), none⟩),
        ("./bak/*.ts".toList, .obj ⟨none, none, some (some "./cjs/*.js".toList), none⟩),
        ("./*".toList, .obj ⟨some (some "./mjs/*".toList), none, some (some "./cjs/*.js".toList), none⟩)])⟩
      "c-a".toList .commonjs
      = some ⟨.exportsKey "./*".toList (some .req), some "/root/./cjs/c-a.js".toList⟩ := by decide

example :
    resolve "/root".toList
      ⟨some "a.js".toList, none, none, some (.patMap [
        ("./foo/*".toList, .nul),
        ("./bar/*".toList, .obj ⟨none, none, some none, none⟩),
        (".".toList, .obj ⟨some (some "./c.js".toList), none, some (some "./b.js".toList), none⟩),
        ("./bak/*.ts".toList, .obj ⟨none, none, some (some "./cjs/*.js".toList), none⟩),
        ("./*".toList, .obj ⟨some (some "./mjs/*".toList), none, some (some "./cjs/*.js".toList), none⟩)])⟩
      "foo/c-a".toList .commonjs
      = some ⟨.exportsKey "./foo/*".toList none, none⟩ := by decide

example :
    resolve "/root".toList
      ⟨some "a.js".toList, none, none, some (.patMap [
        ("./foo/*".toList, .nul),
        ("./bar/*".toList, .obj ⟨none, none, some none, none⟩),
        (".".toList, .obj ⟨some (some "./c.js".toList), none, some (some "./b.js".toList), none⟩),
        ("./bak/*.ts".toList, .obj ⟨none, none, some (some "./cjs/*.js".toList), none⟩),
        ("./*".toList, .obj ⟨some (some "./mjs/*".toList), none, some (some "./cjs/*.js".toList), none⟩)])⟩
      "bak/d.ts".toList .commonjs
      = some ⟨.exportsKey "./bak/*.ts".toList (some .req), some "/root/./cjs/d.js".toList⟩ := by decide

example :
    resolve "/root".toList
      ⟨some "a.js".toList, none, none, some (.patMap [
        ("./bar/*".toList, .obj ⟨none, none, some none, none⟩)])⟩
      "bar/c-a".toList .commonjs
      = some ⟨.exportsKey "./bar/*".toList (some .req), none⟩ := by decide

example : validatePluginDefinition "a".toList "1.2.3".toList 0 true
  = .ok "a@1.2.3".toList := by decide

example : validatePluginDefinition "a".toList "1.2".toList 0 false
  = .ok "a@1.2".toList := by decide

example : validatePluginDefinition "a".toList "1.2.x".toList 0 false
  = .ok "a@1.2.x".toList := by decide

example : validatePluginDefinition "a".toList "1.2.3-prerelease.build1+build".toList 0 true
  = .ok "a@1.2.3-prerelease.build1+build".toList := by decide

example : validatePluginDefinition "a".toList "1.2.3+build".toList 0 true
  = .ok "a@1.2.3+build".toList := by decide

example : validatePluginDefinition "a".toList "https://foo".toList 0 true
  = .ok "https://foo".toList := by decide

example : validatePluginDefinition "a".toList "s3:foo".toList 0 true
  = .ok "s3:foo".toList := by decide

example : validatePluginDefinition "a".toList
  "github:foo/bar#abcdef0123456789abcdef0123456789abcdef01".toList 0 true
  = .ok "github:foo/bar#abcdef0123456789abcdef0123456789abcdef01".toList := by decide

example : validatePluginDefinition "a".toList "^4.5".toList 0 false
  = .ok "a@^4.5".toList := by decide

example : validatePluginDefinition "b".toList "~".toList 1 false
  = .ok "b@~".toList := by decide

example : validatePluginDefinition "".toList "1.2.3".toList 0 false
  = .error (.emptyName 0 []) := by decide

example : validatePluginDefinition "a".toList "*".toList 0 false
  = .error (.vagueVersion 0 "a".toList "*".toList) := by decide

example : validatePluginDefinition "a".toList "^4.5".toList 0 true
  = .error (.versionRange 0 "a".toList "^".toList (some "4.5".toList)) := by decide

example : validatePluginDefinition "b".toList "~".toList 1 true
  = .error (.versionRange 1 "b".toList "~".toList none) := by decide

example : validatePluginDefinition "a".toList "1".toList 0 true
  = .error (.vagueRange 0 "a".toList "1".toList none none) := by decide

example : validatePluginDefinition "a".toList "1.2".toList 0 true
  = .error (.vagueRange 0 "a".toList "1".toList (some ".2".toList) none) := by decide

example : validatePluginDefinition "a".toList "http://some.tgz".toList 0 false
  = .error (.unsupportedProtocol 0 "a".toList "http://some.tgz".toList "http:".toList) := by decide

example : validatePluginDefinition "a".toList "github:foo/bar".toList 0 false
  = .error (.unpinnedGithub 0 "a".toList []) := by decide

example : validatePluginDefinition "a".toList "github:foo/bar#some-branch".toList 0 false
  = .error (.unpinnedGithub 0 "a".toList "#some-branch".toList) := by decide

example : validatePluginDefinition " a".toList "1.2.3".toList 0 false
  = .error (.nameWithSpace 0) := by decide

example : validatePluginDefinition "a".toList "1.2x.3".toList 0 false
  = .error (.notVersionOrURL 0 "a".toList "1.2x.3".toList) := by decide

example : validatePluginDefinition "a".toList "1.2.3x".toList 0 false
  = .error (.notVersionOrURL 0 "a".toList "1.2.3x".toList) := by decide

example : validatePluginDefinition "a".toList "1.x2.3".toList 0 false
  = .error (.notVersionOrURL 0 "a".toList "1.x2.3".toList) := by decide

example : validatePluginDefinition "a".toList ">=1.2.3".toList 0 false
  = .ok "a@>=1.2.3".toList := by decide

example : validatePluginDefinition "a".toList "<=1.2.3".toList 0 false
  = .ok "a@<=1.2.3".toList := by decide

example : jsonStringify [("a".toList, "1.2.3".toList), ("b".toList, "2".toList)]
  = "\x7b\"a\":\"1.2.3\",\"b\":\"2\"\x7d".toList := by decide

example : validatePluginDefinitions
    [("b".toList, "1.2.3".toList), ("a".toList, "3.2.1".toList)] true
  = .ok [("a".toList, "3.2.1".toList), ("b".toList, "1.2.3".toList)] := by decide

example : validatePluginDefinitions
    [("a".toList, "1.2.3".toList), ("b".toList, "~".toList)] true
  = .error (.versionRange 1 "b".toList "~".toList none) := by decide

example : applyDelta [("a".toList, "1".toList), ("b".toList, "2".toList)]
    [("a".toList, "1".toList), ("c".toList, "3".toList)]
  = ([("b".toList, "2".toList)], [("c".toList, "3".toList)]) := by decide

example :
    assertInstalled [("x".toList, "9.9.9".toList)]
      ⟨"h".toList, some 100, [("a".toList, "1.2.3".toList)]⟩
      ⟨120, true, true⟩ ⟨200, none, none, id⟩
  = ⟨.ok ["a".toList], []⟩ := by decide

example :
    assertInstalled [("a".toList, "1.2.3".toList)]
      ⟨"".toList, none, []⟩
      ⟨120, true, true⟩ ⟨200, none, none, id⟩
  = ⟨.ok ["a".toList],
      [.validated [("a".toList, "1.2.3".toList)] true,
        .npmExec .install ["a@1.2.3".toList],
        .wroteState "\x7b\"a\":\"1.2.3\"\x7d".toList [("a".toList, "1.2.3".toList)]]⟩ := by
  decide

example :
    assertInstalled [("a".toList, "1.2.3".toList), ("b".toList, "2.0.0".toList)]
      ⟨"\x7b\"a\":\"1.2.3\"\x7d".toList, some 10, [("a".toList, "1.2.3".toList)]⟩
      ⟨120, true, true⟩ ⟨200, none, none, id⟩
  = ⟨.ok ["a".toList, "b".toList],
      [.validated [("a".toList, "1.2.3".toList), ("b".toList, "2.0.0".toList)] true,
        .npmExec .install ["b@2.0.0".toList],
        .wroteState "\x7b\"a\":\"1.2.3\",\"b\":\"2.0.0\"\x7d".toList
          [("a".toList, "1.2.3".toList), ("b".toList, "2.0.0".toList)]]⟩ := by
  decide

example :
    assertInstalled [("a".toList, "1.2.3".toList)]
      ⟨"".toList, none, []⟩
      ⟨120, true, false⟩ ⟨200, none, some "boom".toList, id⟩
  = ⟨.error (.installFailed ["a".toList] (.npm .install "boom".toList)),
      [.validated [("a".toList, "1.2.3".toList)] true]⟩ := by decide

example : (fuzzyChooseImport ⟨none, some "module".toList, none, none⟩).useImport = true := by
  decide

example : (fuzzyChooseImport ⟨some "a.js".toList, none, none, none⟩).useImport = false := by
  decide

/-- C1: if the persisted state has a modification timestamp and the elapsed
time `now - timestamp` is under `maxAge`, `assertInstalled` returns exactly
the persisted installed-name list with an empty action trace (no validation,
no installer invocation), for every desired spec; once more than `maxAge` has
elapsed, a further call validates the desired spec again (its action trace
starts with the validation of the desired spec). -/
theorem assertInstalled_freshness_fast_path
    (desired : List (JStr × JStr)) (st : StateRec) (opts : AIOpts) (w : World)
    (t : Int) (ht : st.timeMs = some t) :
    (w.now - t < opts.maxAge →
      assertInstalled desired st opts w = ⟨.ok (st.pluginsMap.map Prod.fst), []⟩) ∧
    (w.now - t > opts.maxAge →
      ∃ rest, (assertInstalled desired st opts w).actions
        = AIAction.validated desired opts.strict :: rest) := by
  constructor
  · intro h
    have hff : fastFresh st.timeMs (w.now - opts.maxAge) = true := by
      rw [ht]; simp only [fastFresh, ge_iff_le, decide_eq_true_eq]; omega
    simp [assertInstalled, hff]
  · intro h
    have hff : fastFresh st.timeMs (w.now - opts.maxAge) = false := by
      rw [ht]; simp only [fastFresh, ge_iff_le, decide_eq_false_iff_not, not_le]; omega
    simp only [assertInstalled, hff, Bool.false_eq_true, if_false]
    unfold assertSlow
    cases validatePluginDefinitions desired opts.strict with
    | error e => exact ⟨[], rfl⟩
    | ok pm =>
      simp only []
      split
      · exact ⟨[], rfl⟩
      · split
        · exact ⟨[AIAction.touchedTime w.now], rfl⟩
        · split
          · exact ⟨_, rfl⟩
          · exact ⟨_, rfl⟩

/-- Witness for the freshness fast path at concrete inputs: a state written
at time 100 read again at time 200 with a two-minute window is fresh, so a
different desired spec is ignored; at time 100000 the window has elapsed and
the desired spec is validated. -/
theorem assertInstalled_freshness_fast_path_witness :
    (assertInstalled [("x".toList, "9.9.9".toList)]
        ⟨"h".toList, some 100, [("a".toList, "1.2.3".toList)]⟩
        ⟨120000, true, true⟩ ⟨200, none, none, id⟩
      = ⟨.ok ["a".toList], []⟩) ∧
    (∃ rest, (assertInstalled [("x".toList, "9.9.9".toList)]
        ⟨"h".toList, some 100, [("a".toList, "1.2.3".toList)]⟩
        ⟨120000, true, true⟩ ⟨999999, none, none, id⟩).actions
      = AIAction.validated [("x".toList, "9.9.9".toList)] true :: rest) :=
  ⟨(assertInstalled_freshness_fast_path _ _ _ _ 100 rfl).1 (by decide),
    (assertInstalled_freshness_fast_path _ _ _ _ 100 rfl).2 (by decide)⟩

/-- The npm phase only ever records npm subprocess invocations in its action
trace (in particular it never writes the state file). -/
theorem npmPhase_actions_are_npmExec (w : World) (strict : Bool)
    (toRm toIns : List (JStr × JStr)) :
    ∀ a ∈ (npmPhase w strict toRm toIns).1, ∃ op pkgs, a = AIAction.npmExec op pkgs := by
  intro a ha
  simp only [npmPhase] at ha
  repeat' split at ha
  all_goals simp only [List.mem_cons, List.not_mem_nil, or_false] at ha
  all_goals first
    | exact ha.elim
    | (rcases ha with rfl | rfl <;> exact ⟨_, _, rfl⟩)

/-- C2: when the npm phase of a reconcile fails, the state file is not
rewritten (no `wroteState` action occurs), and the outcome is: with
`failQuietly` (the default) an empty name list, otherwise the wrapped
`installFailed` error carrying the attempted name list and the underlying
cause. -/
theorem assertInstalled_failure_no_persist
    (desired : List (JStr × JStr)) (st : StateRec) (opts : AIOpts) (w : World)
    (pm : List (JStr × JStr)) (c : TryErr)
    (hslow : fastFresh st.timeMs (w.now - opts.maxAge) = false)
    (hval : validatePluginDefinitions desired opts.strict = .ok pm)
    (hhash : st.hash ≠ jsonStringify pm)
    (hdelta : ((applyDelta st.pluginsMap pm).2.isEmpty
      && (applyDelta st.pluginsMap pm).1.isEmpty) = false)
    (hfail : (npmPhase w opts.strict (applyDelta st.pluginsMap pm).1
      (applyDelta st.pluginsMap pm).2).2 = some c) :
    (∀ h p, AIAction.wroteState h p ∉ (assertInstalled desired st opts w).actions) ∧
    (opts.failQuietly = true → (assertInstalled desired st opts w).result = .ok []) ∧
    (opts.failQuietly = false → (assertInstalled desired st opts w).result
      = .error (.installFailed (pm.map Prod.fst) c)) := by
  obtain ⟨acts, hnp⟩ : ∃ acts, npmPhase w opts.strict (applyDelta st.pluginsMap pm).1
      (applyDelta st.pluginsMap pm).2 = (acts, some c) :=
    ⟨(npmPhase w opts.strict (applyDelta st.pluginsMap pm).1 (applyDelta st.pluginsMap pm).2).1,
      by rw [← hfail]⟩
  have hout : assertInstalled desired st opts w
      = ⟨if opts.failQuietly then .ok [] else .error (.installFailed (pm.map Prod.fst) c),
          AIAction.validated desired opts.strict :: acts⟩ := by
    unfold assertInstalled
    rw [hslow]
    simp only [Bool.false_eq_true, if_false]
    unfold assertSlow
    rw [hval]
    simp only [if_neg hhash, hdelta, Bool.false_eq_true, if_false, hnp]
  refine ⟨?_, ?_, ?_⟩
  · intro h p hmem
    rw [hout] at hmem
    simp only [List.mem_cons] at hmem
    rcases hmem with heq | hmem
    · exact AIAction.noConfusion heq
    · obtain ⟨op, pkgs, heq⟩ := npmPhase_actions_are_npmExec w opts.strict _ _ _
        (by rw [hnp] at *; exact hmem)
      exact AIAction.noConfusion heq
  · intro hq; rw [hout]; simp [hq]
  · intro hq; rw [hout]; simp [hq]

/-- Witness for the failure path at concrete inputs: installing `a@1.2.3`
into an empty state with the npm subprocess failing leaves no `wroteState`
action, returns `[]` when failing quietly, and throws the wrapped error
(with the attempted names and cause) when not. -/
theorem assertInstalled_failure_no_persist_witness :
    ((∀ h p, AIAction.wroteState h p ∉ (assertInstalled [("a".toList, "1.2.3".toList)]
        ⟨"".toList, none, []⟩ ⟨120000, true, true⟩
        ⟨200, none, some "boom".toList, id⟩).actions) ∧
      (assertInstalled [("a".toList, "1.2.3".toList)] ⟨"".toList, none, []⟩
        ⟨120000, true, true⟩ ⟨200, none, some "boom".toList, id⟩).result = .ok []) ∧
    (assertInstalled [("a".toList, "1.2.3".toList)] ⟨"".toList, none, []⟩
        ⟨120000, true, false⟩ ⟨200, none, some "boom".toList, id⟩).result
      = .error (.installFailed ["a".toList] (.npm .install "boom".toList)) :=
  ⟨⟨(assertInstalled_failure_no_persist [("a".toList, "1.2.3".toList)]
        ⟨"".toList, none, []⟩ ⟨120000, true, true⟩ ⟨200, none, some "boom".toList, id⟩
        [("a".toList, "1.2.3".toList)]
        (.npm .install "boom".toList) (by decide) (by decide) (by decide) (by decide)
        (by decide)).1,
      (assertInstalled_failure_no_persist [("a".toList, "1.2.3".toList)]
        ⟨"".toList, none, []⟩ ⟨120000, true, true⟩ ⟨200, none, some "boom".toList, id⟩
        [("a".toList, "1.2.3".toList)]
        (.npm .install "boom".toList) (by decide) (by decide) (by decide) (by decide)
        (by decide)).2.1 rfl⟩,
    (assertInstalled_failure_no_persist [("a".toList, "1.2.3".toList)]
        ⟨"".toList, none, []⟩ ⟨120000, true, false⟩ ⟨200, none, some "boom".toList, id⟩
        [("a".toList, "1.2.3".toList)]
        (.npm .install "boom".toList) (by decide) (by decide) (by decide) (by decide)
        (by decide)).2.2 rfl⟩

/-- C4 (code evaluation at the failing input): the memo guard of
`Plugin.package` / `Plugin.data` is inverted (`force !== true`).  With a
cached value `0` and a fresh on-disk value `1`: a call *without* `force`
re-runs the loader and returns the fresh value (instead of the claimed
cached value without a re-read), while a call *with* `force: true` returns
the stale memo without re-reading (instead of the claimed forced re-read).
Only a first call on an empty memo behaves as described. -/
theorem packageCall_memo_guard_inverted :
    packageCall (some 0) none 1 = (1, some 1, true)
    ∧ packageCall (some 0) (some true) 1 = (0, some 0, false)
    ∧ packageCall (none : Option Nat) none 1 = (1, some 1, true) := by
  decide

/-- C7 (code evaluation at the failing input): `isDefinition` compares the
exports value against the literal string `"string"` instead of its type, so
a manifest with `main: 'a.js'` and the bare-string `exports: './b.js'` is
resolved by the legacy `main` strategy (yielding `/root/a.js`), not by the
exports strategy the claim (and the repo's own test
`util.test.ts: 'export override string'`) expects (`/root/b.js`); under
`"module"` it resolves to nothing at all.  A single definition *object* is
treated as the `"."` definition as claimed, and the literal string
`"string"` is (absurdly) the one bare string recognised as a definition. -/
theorem bareStringExports_uses_legacy_strategy :
    isDefinition (some (ExportsVal.str "./b.js".toList)) = false
    ∧ resolve "/root".toList
        ⟨some "a.js".toList, none, none, some (.str "./b.js".toList)⟩ "".toList .commonjs
      = some ⟨.mainOnly, some "/root/a.js".toList⟩
    ∧ resolve "/root".toList
        ⟨some "a.js".toList, none, none, some (.str "./b.js".toList)⟩ "".toList .module
      = none
    ∧ isDefinition (some (ExportsVal.str "string".toList)) = true
    ∧ resolve "/root".toList
        ⟨some "a.js".toList, none, none,
          some (.defObj ⟨some (some "./b.js".toList), none, some (some "./c.js".toList), none⟩)⟩
        "".toList .commonjs
      = some ⟨.exportsKey ".".toList (some .req), some "/root/./c.js".toList⟩ := by
  decide

/-- C5: with `exports = { "./*": A, "./bak/*.ts": B }` (in either insertion
order, for arbitrary string definitions `A`, `B`, any package root and either
module system), resolving `"bak/x.ts"` selects the longer pattern
`./bak/*.ts` — never the `./*` catch-all: the pattern entries are tried in
order of decreasing pattern-string length and the first match wins. -/
theorem exportsPattern_longer_pattern_wins
    (A B root : JStr) (t : MType) :
    resolve root ⟨none, none, none, some (.patMap
        [("./*".toList, .str A), ("./bak/*.ts".toList, .str B)])⟩
      "bak/x.ts".toList t
      = some ⟨.exportsKey "./bak/*.ts".toList none, some (pathResolve root B)⟩
    ∧ resolve root ⟨none, none, none, some (.patMap
        [("./bak/*.ts".toList, .str B), ("./*".toList, .str A)])⟩
      "bak/x.ts".toList t
      = some ⟨.exportsKey "./bak/*.ts".toList none, some (pathResolve root B)⟩ := by
  cases t <;> exact ⟨rfl, rfl⟩

/-- C6: with `exports = { "./hidden": null }`, resolving the sub-path
`"hidden"` under either module system returns a *defined* result whose
location is `null` (`none`), while resolving any sub-path that matches no
export pattern (any sub-path not normalizing to `./hidden`) returns
`undefined` (`none` at the outer option); the two outcomes are distinct for
every possible defined result. -/
theorem nullDefinition_distinct_from_no_match
    (root : JStr) (t : MType) :
    resolve root ⟨none, none, none, some (.patMap [("./hidden".toList, .nul)])⟩
      "hidden".toList t
      = some ⟨.exportsKey "./hidden".toList none, none⟩
    ∧ (∀ s, normalizeName (some s) ≠ "./hidden".toList →
        resolve root ⟨none, none, none, some (.patMap [("./hidden".toList, .nul)])⟩ s t
          = none)
    ∧ (∀ r : ImportRes, (some r : Option ImportRes) ≠ none) := by
  refine ⟨?_, ?_, fun r => Option.some_ne_none r⟩
  · cases t <;> rfl
  · intro s hs
    have hpm : createPatternMatcher "./hidden".toList
        = fun test => if test = "./hidden".toList then some [] else none := rfl
    cases t <;>
      · show runMatchers root [(createPatternMatcher "./hidden".toList, _)]
          (normalizeName (some s)) = none
        rw [hpm]
        simp only [runMatchers, if_neg hs]

/-- Witness for the null-definition distinction at concrete inputs:
`"hidden"` resolves to a defined result with a `null` location, `"nope"`
(which normalizes to `./nope`, matching nothing) resolves to `undefined`. -/
theorem nullDefinition_distinct_from_no_match_witness :
    resolve "/root".toList ⟨none, none, none, some (.patMap [("./hidden".toList, .nul)])⟩
      "hidden".toList .commonjs = some ⟨.exportsKey "./hidden".toList none, none⟩
    ∧ resolve "/root".toList ⟨none, none, none, some (.patMap [("./hidden".toList, .nul)])⟩
      "nope".toList .commonjs = none :=
  ⟨(nullDefinition_distinct_from_no_match "/root".toList .commonjs).1,
    (nullDefinition_distinct_from_no_match "/root".toList .commonjs).2.1
      "nope".toList (by decide)⟩

/-- `indexOf '*'` on a string decomposed around its first star. -/
theorem jsIndexOf_first_star (pre suf : JStr) (h : '*' ∉ pre) :
    jsIndexOf (pre ++ '*' :: suf) '*' = some pre.length := by
  induction pre with
  | nil => simp [jsIndexOf]
  | cons c cs ih =>
    have hc : ¬(c = '*') := fun hcc => h (hcc ▸ List.mem_cons_self c cs)
    have ih' := ih (fun hm => h (List.mem_cons_of_mem c hm))
    simp only [jsIndexOf] at ih'
    have hpc : (decide (c = '*')) = false := by simp [hc]
    simp only [jsIndexOf, List.cons_append, List.findIdx?_cons, hpc, Bool.false_eq_true,
      if_false, List.findIdx?_succ, ih', List.length_cons]
    rfl

/-- C10: in a pattern with more than one `*` (written `pre ++ '*' :: suf`
around its first star, so `suf` still contains a star), only the first star
is a wildcard: the pattern matches exactly the inputs that start with `pre`
and end with the literal remainder `suf` (later stars included verbatim),
the capture is the middle text whenever the input decomposes around the two
literal parts, and substituting a capture into a matched target path replaces
only the target's first star (the remainder after it, later stars included,
is appended literally). -/
theorem multiStar_pattern_first_star_only
    (pre suf tpre tsuf : JStr) (c : CauseTag)
    (hpre : '*' ∉ pre) (hsuf : '*' ∈ suf) (htpre : '*' ∉ tpre) :
    (∀ test, (createPatternMatcher (pre ++ '*' :: suf) test).isSome
        ↔ (pre <+: test ∧ suf <:+ test)) ∧
    (∀ mid, createPatternMatcher (pre ++ '*' :: suf) (pre ++ mid ++ suf) = some mid) ∧
    (∀ input, (lookupDef c (some (some (tpre ++ '*' :: tsuf)))).map (fun f => f input)
        = some ⟨c, some (tpre ++ input ++ tsuf)⟩) := by
  have hsufne : suf ≠ [] := by rintro rfl; simp at hsuf
  have hlen : (pre ++ '*' :: suf).length = pre.length + suf.length + 1 := by
    simp [List.length_append]; omega
  have hne : pre.length ≠ (pre ++ '*' :: suf).length - 1 := by
    rw [hlen]
    have : 0 < suf.length := List.length_pos.mpr hsufne
    omega
  have hassoc : pre ++ '*' :: suf = (pre ++ ['*']) ++ suf := by simp
  have htake : (pre ++ '*' :: suf).take pre.length = pre := List.take_left pre _
  have hdrop : (pre ++ '*' :: suf).drop (pre.length + 1) = suf := by
    rw [hassoc]
    exact List.drop_left' (by simp)
  have hcm : createPatternMatcher (pre ++ '*' :: suf)
      = fun test => if pre.isPrefixOf test && suf.isSuffixOf test then
          some (jsSubstring test pre.length (test.length - suf.length)) else none := by
    unfold createPatternMatcher
    rw [jsIndexOf_first_star pre suf hpre]
    simp only [if_pos hne, htake, hdrop, List.length_take]
  refine ⟨?_, ?_, ?_⟩
  · intro test
    rw [hcm]
    by_cases hp : pre <+: test
    · by_cases hq : suf <:+ test
      · simp [hp, hq, List.isPrefixOf_iff_prefix, List.isSuffixOf_iff_suffix]
      · simp [hp, hq, List.isPrefixOf_iff_prefix, List.isSuffixOf_iff_suffix]
    · simp [hp, List.isPrefixOf_iff_prefix]
  · intro mid
    rw [hcm]
    have hp : pre.isPrefixOf (pre ++ mid ++ suf) = true := by
      rw [List.isPrefixOf_iff_prefix]
      exact ⟨mid ++ suf, by simp⟩
    have hq : suf.isSuffixOf (pre ++ mid ++ suf) = true := by
      rw [List.isSuffixOf_iff_suffix]
      exact ⟨pre ++ mid, by simp⟩
    simp only [hp, hq, Bool.and_self, if_true, if_pos]
    have hlen2 : (pre ++ mid ++ suf).length - suf.length = pre.length + mid.length := by
      simp [List.length_append]; omega
    have hle : pre.length ≤ pre.length + mid.length := Nat.le_add_right _ _
    rw [jsSubstring, hlen2, if_pos hle]
    rw [show pre ++ mid ++ suf = (pre ++ mid) ++ suf by simp,
      List.take_left' (by simp [List.length_append]),
      List.drop_left' rfl]
  · intro input
    simp only [lookupDef]
    rw [jsIndexOf_first_star tpre tsuf htpre]
    by_cases ht : tsuf = []
    · subst ht
      have hne2 : ¬(tpre.length ≠ (tpre ++ '*' :: ([] : JStr)).length - 1) := by simp
      have htk : (tpre ++ '*' :: ([] : JStr)).take tpre.length = tpre := List.take_left tpre _
      simp only [if_neg hne2, Option.map_some]
      simp [htk, List.append_nil]
    · have hne2 : tpre.length ≠ (tpre ++ '*' :: tsuf).length - 1 := by
        have : 0 < tsuf.length := List.length_pos.mpr ht
        simp only [List.length_append, List.length_cons]
        omega
      have htk : (tpre ++ '*' :: tsuf).take tpre.length = tpre := List.take_left tpre _
      have hdr : (tpre ++ '*' :: tsuf).drop (tpre.length + 1) = tsuf := by
        rw [show tpre ++ '*' :: tsuf = (tpre ++ ['*']) ++ tsuf by simp]
        exact List.drop_left' (by simp)
      simp only [if_pos hne2, Option.map_some]
      simp [htk, hdr]

/-- Witness for the multi-star pattern behaviour at the concrete pattern
`a*b*c` (first star wildcard, `b*c` literal suffix) and target `x*y*z`. -/
theorem multiStar_pattern_first_star_only_witness :
    ((createPatternMatcher ("a".toList ++ '*' :: "b*c".toList) "aXYb*c".toList).isSome
        ↔ ("a".toList <+: "aXYb*c".toList ∧ "b*c".toList <:+ "aXYb*c".toList))
    ∧ createPatternMatcher ("a".toList ++ '*' :: "b*c".toList)
        ("a".toList ++ "XY".toList ++ "b*c".toList) = some "XY".toList
    ∧ (lookupDef .mainOnly (some (some ("x".toList ++ '*' :: "y*z".toList)))).map
        (fun f => f "CAP".toList)
      = some ⟨.mainOnly, some ("x".toList ++ "CAP".toList ++ "y*z".toList)⟩ :=
  ⟨(multiStar_pattern_first_star_only "a".toList "b*c".toList "x".toList "y*z".toList
      .mainOnly (by decide) (by decide) (by decide)).1 "aXYb*c".toList,
    (multiStar_pattern_first_star_only "a".toList "b*c".toList "x".toList "y*z".toList
      .mainOnly (by decide) (by decide) (by decide)).2.1 "XY".toList,
    (multiStar_pattern_first_star_only "a".toList "b*c".toList "x".toList "y*z".toList
      .mainOnly (by decide) (by decide) (by decide)).2.2 "CAP".toList⟩

/-- C9: every name/value pair accepted by `validatePluginDefinition` under
strict mode is accepted identically under non-strict mode; the converse
fails, e.g. the range-prefixed `^1.2.3` is accepted only non-strictly. -/
theorem validatePluginDefinition_strict_monotone :
    (∀ (k v : JStr) (i : Nat) (r : JStr),
      validatePluginDefinition k v i true = .ok r →
      validatePluginDefinition k v i false = .ok r)
    ∧ validatePluginDefinition "a".toList "^1.2.3".toList 0 false = .ok "a@^1.2.3".toList
    ∧ validatePluginDefinition "a".toList "^1.2.3".toList 0 true
      = .error (.versionRange 0 "a".toList "^".toList (some "1.2.3".toList)) := by
  refine ⟨?_, by decide, by decide⟩
  intro k v i r h
  unfold validatePluginDefinition at h ⊢
  by_cases h1 : List.any k isJsWhitespace = true
  · rw [if_pos h1] at h; exact Except.noConfusion h
  rw [if_neg h1] at h ⊢
  by_cases h2 : List.all k isJsWhitespace = true
  · rw [if_pos h2] at h; exact Except.noConfusion h
  rw [if_neg h2] at h ⊢
  by_cases h3 : v = "*".toList ∨ v = []
  · rw [if_pos h3] at h; exact Except.noConfusion h
  rw [if_neg h3] at h ⊢
  rcases hse : semverExec v with _ | g <;> rw [hse] at h
  · exact h
  · replace h : (if g.range.isSome then
          (Except.error (VError.versionRange i k (g.range.getD []) g.version)
            : Except VError JStr)
        else if g.minorG.isNone || g.patchG.isNone then
          Except.error (VError.vagueRange i k (g.major.getD []) g.minorG g.patchG)
        else Except.ok (k ++ '@' :: v)) = Except.ok r := h
    show Except.ok (k ++ '@' :: v) = Except.ok r
    split at h
    · exact Except.noConfusion h
    · split at h
      · exact Except.noConfusion h
      · exact h

/-- Witness for strict-mode monotonicity: `1.2.3` is accepted strictly, and
the theorem transports that acceptance to non-strict mode. -/
theorem validatePluginDefinition_strict_monotone_witness :
    validatePluginDefinition "a".toList "1.2.3".toList 0 false = .ok "a@1.2.3".toList :=
  validatePluginDefinition_strict_monotone.1 "a".toList "1.2.3".toList 0 "a@1.2.3".toList
    (by decide)

/-- Inserting with `jsSortInsert` is a permutation of consing. -/
theorem jsSortInsert_perm (le : α → α → Bool) (a : α) (l : List α) :
    (jsSortInsert le a l).Perm (a :: l) := by
  induction l with
  | nil => simp [jsSortInsert]
  | cons b bs ih =>
    unfold jsSortInsert
    split
    · exact (ih.cons b).trans (List.Perm.swap a b bs)
    · exact List.Perm.refl _

/-- The sort worker permutes the accumulator and the remaining input. -/
theorem jsSortGo_perm (le : α → α → Bool) :
    ∀ (l acc : List α), (jsSortGo le acc l).Perm (acc ++ l)
  | [], acc => by simp [jsSortGo]
  | a :: as, acc => by
    unfold jsSortGo
    exact ((jsSortGo_perm le as _).trans
      ((jsSortInsert_perm le a acc).append_right as)).trans List.perm_middle.symm

/-- `jsStableSort` permutes its input. -/
theorem jsStableSort_perm (le : α → α → Bool) (l : List α) :
    (jsStableSort le l).Perm l :=
  jsSortGo_perm le l []

/-- `jsSortInsert` preserves sortedness for a transitive, total comparator. -/
theorem jsSortInsert_pairwise (le : α → α → Bool)
    (htr : ∀ a b c, le a b = true → le b c = true → le a c = true)
    (hto : ∀ a b, le a b = true ∨ le b a = true)
    (a : α) (l : List α) (h : l.Pairwise (fun x y => le x y = true)) :
    (jsSortInsert le a l).Pairwise (fun x y => le x y = true) := by
  induction l with
  | nil => simp [jsSortInsert]
  | cons b bs ih =>
    rcases List.pairwise_cons.mp h with ⟨hb, hbs⟩
    unfold jsSortInsert
    split
    · next hba =>
      refine List.pairwise_cons.mpr ⟨?_, ih hbs⟩
      intro x hx
      rcases List.mem_cons.mp ((jsSortInsert_perm le a bs).mem_iff.mp hx) with rfl | hxbs
      · exact hba
      · exact hb x hxbs
    · next hba =>
      have hab : le a b = true := (hto a b).resolve_right hba
      refine List.pairwise_cons.mpr ⟨?_, h⟩
      intro x hx
      rcases List.mem_cons.mp hx with rfl | hxbs
      · exact hab
      · exact htr a b x hab (hb x hxbs)

/-- The sort worker preserves sortedness of the accumulator. -/
theorem jsSortGo_pairwise (le : α → α → Bool)
    (htr : ∀ a b c, le a b = true → le b c = true → le a c = true)
    (hto : ∀ a b, le a b = true ∨ le b a = true) :
    ∀ (l acc : List α), acc.Pairwise (fun x y => le x y = true) →
      (jsSortGo le acc l).Pairwise (fun x y => le x y = true)
  | [], _, h => h
  | a :: as, acc, h =>
    jsSortGo_pairwise le htr hto as _ (jsSortInsert_pairwise le htr hto a acc h)

/-- `jsStableSort` sorts, for a transitive, total comparator. -/
theorem jsStableSort_pairwise (le : α → α → Bool)
    (htr : ∀ a b c, le a b = true → le b c = true → le a c = true)
    (hto : ∀ a b, le a b = true ∨ le b a = true) (l : List α) :
    (jsStableSort le l).Pairwise (fun x y => le x y = true) :=
  jsSortGo_pairwise le htr hto l [] (List.Pairwise.nil)

/-- `strLt` is irreflexive. -/
theorem strLt_irrefl : ∀ a : JStr, strLt a a = false
  | [] => rfl
  | c :: cs => by simp [strLt, lt_irrefl, strLt_irrefl cs]

/-- `strLt` is transitive. -/
theorem strLt_trans : ∀ (a b c : JStr),
    strLt a b = true → strLt b c = true → strLt a c = true
  | _, b, [], _, hbc => by simp [strLt] at hbc
  | a, [], _ :: _, hab, _ => by simp [strLt] at hab
  | [], _ :: _, _ :: _, _, _ => rfl
  | a :: as, b :: bs, c :: cs, hab, hbc => by
    unfold strLt at hab hbc ⊢
    rcases lt_trichotomy a b with h1 | h1 | h1
    · rcases lt_trichotomy b c with h2 | h2 | h2
      · simp [lt_trans h1 h2]
      · subst h2; simp [h1]
      · simp [lt_asymm h2, h2] at hbc
    · subst h1
      rw [if_neg (lt_irrefl a), if_neg (lt_irrefl a)] at hab
      rcases lt_trichotomy a c with h2 | h2 | h2
      · simp [h2]
      · subst h2
        rw [if_neg (lt_irrefl a), if_neg (lt_irrefl a)] at hbc ⊢
        exact strLt_trans as bs cs hab hbc
      · simp [lt_asymm h2, h2] at hbc
    · simp [lt_asymm h1, h1] at hab

/-- `strLt` is connex: two mutually non-smaller strings are equal. -/
theorem strLt_connex : ∀ (a b : JStr),
    strLt a b = false → strLt b a = false → a = b
  | [], [], _, _ => rfl
  | [], _ :: _, hab, _ => by simp [strLt] at hab
  | _ :: _, [], _, hba => by simp [strLt] at hba
  | a :: as, b :: bs, hab, hba => by
    unfold strLt at hab hba
    rcases lt_trichotomy a b with h1 | h1 | h1
    · simp [h1] at hab
    · subst h1
      rw [if_neg (lt_irrefl a), if_neg (lt_irrefl a)] at hab hba
      rw [strLt_connex as bs hab hba]
    · simp [h1, lt_asymm h1] at hba

/-- `sortByFirstLe` is transitive. -/
theorem sortByFirstLe_trans (a b c : JStr × JStr) :
    sortByFirstLe a b = true → sortByFirstLe b c = true → sortByFirstLe a c = true := by
  intro hab hbc
  simp only [sortByFirstLe, Bool.not_eq_true'] at *
  cases hca : strLt c.1 a.1
  · rfl
  · exfalso
    cases hab' : strLt a.1 b.1
    · have he : a.1 = b.1 := strLt_connex a.1 b.1 hab' hab
      rw [he] at hca
      rw [hca] at hbc
      exact Bool.noConfusion hbc
    · have hcb := strLt_trans c.1 a.1 b.1 hca hab'
      rw [hbc] at hcb
      exact Bool.noConfusion hcb

/-- `sortByFirstLe` is total. -/
theorem sortByFirstLe_total (a b : JStr × JStr) :
    sortByFirstLe a b = true ∨ sortByFirstLe b a = true := by
  simp only [sortByFirstLe, Bool.not_eq_true']
  cases hab : strLt a.1 b.1
  · right; rfl
  · left
    cases hba : strLt b.1 a.1
    · rfl
    · exact absurd (strLt_trans a.1 b.1 a.1 hab hba) (by simp [strLt_irrefl])

/-- Two permutations of one entry list with pairwise distinct names have the
same stable `sortByFirst` sort: sortedness is strict on the (distinct) keys,
and a strictly sorted permutation is unique. -/
theorem jsStableSort_eq_of_perm (l1 l2 : List (JStr × JStr))
    (hperm : l1.Perm l2) (hnd : (l1.map Prod.fst).Nodup) :
    jsStableSort sortByFirstLe l1 = jsStableSort sortByFirstLe l2 := by
  have p1 := jsStableSort_perm sortByFirstLe l1
  have p2 := jsStableSort_perm sortByFirstLe l2
  have hp : (jsStableSort sortByFirstLe l1).Perm (jsStableSort sortByFirstLe l2) :=
    p1.trans (hperm.trans p2.symm)
  have s1 := jsStableSort_pairwise sortByFirstLe
    (fun a b c => sortByFirstLe_trans a b c) sortByFirstLe_total l1
  have s2 := jsStableSort_pairwise sortByFirstLe
    (fun a b c => sortByFirstLe_trans a b c) sortByFirstLe_total l2
  have nd1 : ((jsStableSort sortByFirstLe l1).map Prod.fst).Nodup :=
    ((p1.map Prod.fst).nodup_iff).mpr hnd
  have nd2 : ((jsStableSort sortByFirstLe l2).map Prod.fst).Nodup :=
    ((p2.map Prod.fst).nodup_iff).mpr (((hperm.map Prod.fst).nodup_iff).mp hnd)
  have hstrengthen : ∀ (m : List (JStr × JStr)),
      m.Pairwise (fun x y => sortByFirstLe x y = true) →
      (m.map Prod.fst).Nodup →
      m.Pairwise (fun x y => strLt x.1 y.1 = true) := by
    intro m hs hn
    have hne : m.Pairwise (fun x y => x.1 ≠ y.1) := List.pairwise_map.mp hn
    refine (hs.and hne).imp ?_
    intro x y hxy
    rcases hxy with ⟨hle, hner⟩
    simp only [sortByFirstLe, Bool.not_eq_true'] at hle
    cases hlt : strLt x.1 y.1
    · exact absurd (strLt_connex x.1 y.1 hlt hle) hner
    · rfl
  haveI : IsAntisymm (JStr × JStr) (fun x y => strLt x.1 y.1 = true) := by
    refine ⟨fun x y hxy hyx => ?_⟩
    have := strLt_trans x.1 y.1 x.1 hxy hyx
    rw [strLt_irrefl] at this
    exact Bool.noConfusion this
  exact List.eq_of_perm_of_sorted hp (hstrengthen _ s1 nd1) (hstrengthen _ s2 nd2)

/-- When the processed entries have pairwise distinct names (also distinct
from the accumulator's), the validation loop succeeds exactly by appending
them in order. -/
theorem validateEntriesGo_ok (strict : Bool) :
    ∀ (l : List (JStr × JStr)) (i : Nat) (acc m : List (JStr × JStr)),
      validateEntriesGo strict i acc l = .ok m →
      (∀ e ∈ l, ∀ f ∈ acc, e.1 ≠ f.1) →
      (l.map Prod.fst).Nodup →
      m = acc ++ l
  | [], _, acc, m, h, _, _ => by
    simp only [validateEntriesGo] at h
    injection h with h
    simp [← h]
  | (k, v) :: rest, i, acc, m, h, hdisj, hnd => by
    simp only [validateEntriesGo] at h
    cases hv : validatePluginDefinition k v i strict with
    | error e => rw [hv] at h; exact Except.noConfusion h
    | ok key =>
      rw [hv] at h
      have hsetk : ¬(acc.any (fun e => e.1 = k)) = true := by
        simp only [List.any_eq_true, decide_eq_true_eq, not_exists]
        rintro f ⟨hf, hfk⟩
        exact hdisj (k, v) (List.mem_cons_self _ _) f hf hfk.symm
      have hset : recordSet acc k v = acc ++ [(k, v)] := by
        unfold recordSet
        rw [if_neg hsetk]
      rw [hset] at h
      have hknotin : k ∉ rest.map Prod.fst := by
        simp only [List.map_cons, List.nodup_cons] at hnd
        exact hnd.1
      have hdisj' : ∀ e ∈ rest, ∀ f ∈ acc ++ [(k, v)], e.1 ≠ f.1 := by
        intro e he f hf
        rcases List.mem_append.mp hf with hfa | hfk
        · exact hdisj e (List.mem_cons_of_mem _ he) f hfa
        · have : f = (k, v) := List.mem_singleton.mp hfk
          subst this
          intro hek
          have hek' : e.1 = k := hek
          exact hknotin (hek' ▸ List.mem_map_of_mem Prod.fst he)
      have hnd' : (rest.map Prod.fst).Nodup := by
        simp only [List.map_cons, List.nodup_cons] at hnd
        exact hnd.2
      have ih := validateEntriesGo_ok strict rest (i + 1) (acc ++ [(k, v)]) m h hdisj' hnd'
      rw [ih]
      simp

/-- C8: for desired-spec mappings containing the same name/version entries in
different insertion orders (names pairwise distinct), `validatePluginDefinitions`
produces identical results — hence identical `JSON.stringify` fingerprints —
and a successful result is a permutation of the input entries (values
unchanged) whose names appear in sorted order. -/
theorem validatePluginDefinitions_order_independent
    (l1 l2 : List (JStr × JStr)) (s : Bool)
    (hperm : l1.Perm l2) (hnd : (l1.map Prod.fst).Nodup) :
    validatePluginDefinitions l1 s = validatePluginDefinitions l2 s
    ∧ (validatePluginDefinitions l1 s).map jsonStringify
      = (validatePluginDefinitions l2 s).map jsonStringify
    ∧ (∀ m, validatePluginDefinitions l1 s = .ok m →
        m.Perm l1 ∧ (m.map Prod.fst).Pairwise (fun x y => strLt y x = false)) := by
  have hsort := jsStableSort_eq_of_perm l1 l2 hperm hnd
  have h1 : validatePluginDefinitions l1 s = validatePluginDefinitions l2 s := by
    unfold validatePluginDefinitions
    rw [hsort]
  refine ⟨h1, by rw [h1], ?_⟩
  intro m hm
  have hm' : validateEntriesGo s 0 [] (jsStableSort sortByFirstLe l1) = .ok m := hm
  have hsnd : ((jsStableSort sortByFirstLe l1).map Prod.fst).Nodup :=
    (((jsStableSort_perm sortByFirstLe l1).map Prod.fst).nodup_iff).mpr hnd
  have hme : m = [] ++ jsStableSort sortByFirstLe l1 :=
    validateEntriesGo_ok s (jsStableSort sortByFirstLe l1) 0 [] m hm' (by simp) hsnd
  rw [List.nil_append] at hme
  subst hme
  constructor
  · exact jsStableSort_perm sortByFirstLe l1
  · have hs := jsStableSort_pairwise sortByFirstLe
      (fun a b c => sortByFirstLe_trans a b c) sortByFirstLe_total l1
    refine List.pairwise_map.mpr (hs.imp ?_)
    intro x y hxy
    simpa [sortByFirstLe] using hxy

/-- Witness for order independence at the repo test fixture
`{b: 1.2.3, a: 3.2.1}` versus its reordering. -/
theorem validatePluginDefinitions_order_independent_witness :
    validatePluginDefinitions [("b".toList, "1.2.3".toList), ("a".toList, "3.2.1".toList)] true
      = validatePluginDefinitions
        [("a".toList, "3.2.1".toList), ("b".toList, "1.2.3".toList)] true :=
  (validatePluginDefinitions_order_independent
    [("b".toList, "1.2.3".toList), ("a".toList, "3.2.1".toList)]
    [("a".toList, "3.2.1".toList), ("b".toList, "1.2.3".toList)] true
    (by decide) (by decide)).1

/-- C3 counterexample: `Plugin.data` does not follow the claimed resolution.
For a manifest with `exports = {".": {import: null, default: "./x.js"}}` the
claimed strategy picks the `commonjs` mechanism (`require`, since the
`module`-mode location is `null`), but the code's `fuzzyChooseImport` sees a
present `import` key under `exports["."]` and uses dynamic `import`.  For
`exports = {".": null}` the claimed strategy fails with `NoEntryPointError`,
but the code simply `require`s the package root (it never raises such an
error, and `data` takes no sub-path at all). -/
theorem dataResolution_claim_false :
    c3ClaimedResolution "/root".toList
      ⟨none, none, none, some (.patMap [(".".toList,
        .obj ⟨some none, none, none, some (some "./x.js".toList)⟩)])⟩ "".toList
      = .viaRequire (pathResolve "/root".toList "./x.js".toList)
    ∧ (fuzzyChooseImport ⟨none, none, none, some (.patMap [(".".toList,
        .obj ⟨some none, none, none, some (some "./x.js".toList)⟩)])⟩).useImport = true
    ∧ c3ClaimedResolution "/root".toList
      ⟨none, none, none, some (.patMap [(".".toList, .nul)])⟩ "".toList
      = .noEntryPoint
    ∧ (fuzzyChooseImport
        ⟨none, none, none, some (.patMap [(".".toList, .nul)])⟩).useImport = false := by
  decide

/-- C3 amended: for every manifest, the loading mechanism `Plugin.data`
selects (the `useImport` flag of `fuzzyChooseImport`) is exactly the amended
claim's heuristic. -/
theorem data_uses_fuzzyChooseImport (pkg : Pkg) :
    (fuzzyChooseImport pkg).useImport = fuzzyHeuristicSpec pkg := by
  unfold fuzzyChooseImport fuzzyHeuristicSpec
  split_ifs <;> simp_all [FuzzyCause.useImport]
